import Mathlib

/-!
# txgroup: a verification development

A shallow embedding of `txgroup.go` (package `txgroup`) and theorems about it.

Modelling conventions.

* A Go `error` is an `Option GoError`; `none` is `nil`.
* A participant (`Tx`) is a record of its four methods.  `Commit` and
  `Rollback` act on an external world of type `σ` (the resources behind the
  participants) and may return a different result at every call.  `Key` and
  `Weight` are pure.  `Weight` is a Go `uint`; it is only ever compared, so
  it is a `Nat`.
* A `context.Context` is its chain of layers.  Whether a layer made by
  `context.WithCancel` has been cancelled is runtime state: the list
  `Runtime.cancelled` of the cancelled cells.  Deadlines are not modelled.
* `Runtime.log` is instrumentation: the `Commit` and `Rollback` calls made
  on participants, oldest first.
* A `*Group` receiver is passed in and returned (`Result.group`).
-/

namespace Txgroup

/-! ## Errors -/

/-- Go error values: `errors.New`, `fmt.Errorf` with one `%w` verb, and
`context.Canceled`. -/
inductive GoError where
  | errorString (s : String)
  | wrapError (msg : String) (err : GoError)
  | canceled
  deriving DecidableEq, Repr

/-- The `Error()` method. -/
def GoError.Error : GoError → String
  | .errorString s => s
  | .wrapError msg _ => msg
  | .canceled => "context canceled"

/-- The `Unwrap()` method (what `errors.Unwrap` returns). -/
def GoError.Unwrap : GoError → Option GoError
  | .wrapError _ err => some err
  | _ => none

/-- The call `fmt.Errorf("%s" + verb + "%w", key, err)`, for a constant text
`verb`: the message is formatted from the key and the cause's message, and
the cause is kept for `Unwrap`. -/
def Errorf (key verb : String) (err : GoError) : GoError :=
  .wrapError (key ++ verb ++ err.Error) err

/-! ## Participants -/

/-- The interface `Tx`.  `ptr` stands for the identity of the dynamic value
(the mocks and the SQL example are pointers). -/
structure Tx (σ : Type) where
  ptr : Nat
  Key : String
  Weight : Nat
  Commit : σ → Option GoError × σ
  Rollback : σ → Option GoError × σ

/-- A call made on a participant. -/
inductive Call (σ : Type) where
  | commit (tx : Tx σ)
  | rollback (tx : Tx σ)

/-! ## Contexts -/

/-- Context keys: values of the unexported type `unique`, and keys of any
other type. -/
inductive CtxKey where
  | unique (s : String)
  | foreign (s : String)
  deriving DecidableEq, Repr

/-- Context values: a value that satisfies `Tx`, or any other value. -/
inductive CtxVal (σ : Type) where
  | tx (t : Tx σ)
  | other (n : Nat)

/-- The chain of layers of a `context.Context`. -/
inductive Context (σ : Type) where
  | background
  | withValue (parent : Context σ) (key : CtxKey) (val : CtxVal σ)
  | withCancel (parent : Context σ) (cell : Nat)

/-- The method `ctx.Err()`, given the cancelled cells: a context is
cancelled when its own cell or the cell of an ancestor is. -/
def Context.Err {σ : Type} : Context σ → List Nat → Option GoError
  | .background, _ => none
  | .withValue parent _ _, cs => parent.Err cs
  | .withCancel parent cell, cs =>
      if cell ∈ cs then some .canceled else parent.Err cs

/-- The method `ctx.Value(key)`: the innermost binding of `key`. -/
def Context.Value {σ : Type} : Context σ → CtxKey → Option (CtxVal σ)
  | .background, _ => none
  | .withValue parent k v, key => if k = key then some v else parent.Value key
  | .withCancel parent _, key => parent.Value key

/-- The context `ctx` is `withCancel _ cell` or derives from it. -/
def Context.under {σ : Type} : Context σ → Nat → Bool
  | .background, _ => false
  | .withValue parent _ _, c => parent.under c
  | .withCancel parent cell, c => cell == c || parent.under c

/-! ## Runtime state -/

/-- What the operations read and write outside the group. -/
structure Runtime (σ : Type) where
  world : σ
  next : Nat
  cancelled : List Nat
  log : List (Call σ)

/-- Calling a `context.CancelFunc`. -/
def Runtime.cancel {σ : Type} (s : Runtime σ) (cell : Nat) : Runtime σ :=
  { s with cancelled := cell :: s.cancelled }

/-- The function `context.WithCancel`: a new layer with a fresh cell. -/
def WithCancel {σ : Type} (ctx : Context σ) (s : Runtime σ) :
    Context σ × Nat × Runtime σ :=
  (.withCancel ctx s.next, s.next, { s with next := s.next + 1 })

/-! ## Standard library: package sort -/

/-- The loop of `sort.Search`, with `fuel` bounding the iterations. -/
def searchLoop (f : Nat → Bool) : Nat → Nat → Nat → Nat
  | 0, i, _ => i
  | fuel + 1, i, j =>
      if i < j then
        let h := (i + j) / 2
        if !f h then searchLoop f fuel (h + 1) j else searchLoop f fuel i h
      else i

/-- The function `sort.Search(n, f)`.  Every iteration shrinks `j - i`, which
starts at `n`, so `n` iterations are enough. -/
def Search (n : Nat) (f : Nat → Bool) : Nat :=
  searchLoop f n 0 n

/-- The call `sort.Slice(txs, less)` of `NewContext`, by its documented
contract: the result is a rearrangement of the slice in which no element is
`less` than an element before it.  The order of elements of equal weight is
left open (the sort is not stable). -/
structure SliceSorter (σ : Type) where
  run : List (Tx σ) → List (Tx σ)
  perm : ∀ l, (run l).Perm l
  sorted : ∀ l, (run l).Pairwise (fun a b => ¬ b.Weight < a.Weight)

/-! ## txgroup.go -/

/-- The function `NewContext`.  `ctx = none` is the nil context.  The sort is
in place, so the caller's slice is returned too. -/
def NewContext {σ : Type} (srt : SliceSorter σ) (ctx : Option (Context σ))
    (txs : List (Tx σ)) (s : Runtime σ) :
    Context σ × Nat × List (Tx σ) × Runtime σ :=
  let ctx0 := match ctx with
    | none => Context.background
    | some c => c
  let txs1 := if txs.length > 1 then srt.run txs else txs
  let ctx1 := txs1.foldl (fun c tx => Context.withValue c (.unique tx.Key) (.tx tx)) ctx0
  let r := WithCancel ctx1 s
  (r.1, r.2.1, txs1, r.2.2)

/-- The function `TxFromContext`, given the cancelled cells. -/
def TxFromContext {σ : Type} (ctx : Context σ) (key : String) (cs : List Nat) :
    Except GoError (Tx σ) :=
  match ctx.Err cs with
  | some err => .error err
  | none =>
      match ctx.Value (.unique key) with
      | some (.tx t) => .ok t
      | _ => .error (.errorString (key ++ " transaction not found"))

/-- The struct `Group`.  `errOnce` is whether the `sync.Once` has run;
`cancel = none` is the nil `CancelFunc` of a zero `Group`. -/
structure Group (σ : Type) where
  errOnce : Bool
  cancel : Option Nat
  txs : List (Tx σ)

/-- The function `WithContext`. -/
def WithContext {σ : Type} (srt : SliceSorter σ) (ctx : Option (Context σ))
    (txs : List (Tx σ)) (s : Runtime σ) : Group σ × Context σ × Runtime σ :=
  let r := NewContext srt ctx txs s
  ({ errOnce := false, cancel := some r.2.1, txs := r.2.2.1 }, r.1, r.2.2.2)

/-- The index `j` computed in `Group.AddTx`: the call of `sort.Search` on
`g.txs`.  `sort.Search` only probes indices below the length. -/
def addTxIndex {σ : Type} (txs : List (Tx σ)) (tx : Tx σ) : Nat :=
  Search txs.length (fun i =>
    match txs[i]? with
    | some t => decide (t.Weight ≥ tx.Weight)
    | none => false)

/-- The new value of `g.txs` in `Group.AddTx`: `append(g.txs, tx)` when `j`
is the length, and otherwise `append(g.txs[:j+1], g.txs[j:]...)` with `tx`
stored at index `j`. -/
def addTxInsert {σ : Type} (txs : List (Tx σ)) (tx : Tx σ) : List (Tx σ) :=
  let j := addTxIndex txs tx
  if j = txs.length then txs ++ [tx]
  else (txs.take (j + 1) ++ txs.drop j).set j tx

/-- The method `Group.AddTx`, given the cancelled cells.  The group is
returned with the outcome: the new context or the error. -/
def AddTx {σ : Type} (g : Group σ) (ctx : Context σ) (tx : Tx σ) (cs : List Nat) :
    Group σ × Except GoError (Context σ) :=
  match ctx.Err cs with
  | some err => (g, .error err)
  | none =>
      ({ g with txs := addTxInsert g.txs tx },
        .ok (.withValue ctx (.unique tx.Key) (.tx tx)))

/-- What a method of `Group` leaves: its return value, the group and the
runtime state. -/
structure Result (σ : Type) where
  err : Option GoError
  group : Group σ
  rt : Runtime σ

/-- The statement `if g.cancel != nil { g.cancel() }`. -/
def Group.runCancel {σ : Type} (g : Group σ) (s : Runtime σ) : Runtime σ :=
  match g.cancel with
  | some cell => s.cancel cell
  | none => s

/-- The loop of `Group.Rollback` over the rest of `g.txs`: `err` is the
local variable, `once` whether `g.errOnce` has run. -/
def rollbackLoop {σ : Type} :
    List (Tx σ) → Option GoError → Bool → Runtime σ → Option GoError × Bool × Runtime σ
  | [], err, once, s => (err, once, s)
  | tx :: rest, _, once, s =>
      let r := tx.Rollback s.world
      let s1 := { s with world := r.2, log := s.log ++ [Call.rollback tx] }
      match r.1 with
      | some e =>
          if once then rollbackLoop rest (some e) true s1
          else rollbackLoop rest (some (Errorf tx.Key " rollback failed: " e)) true s1
      | none => rollbackLoop rest none once s1

/-- The method `Group.Rollback`. -/
def Rollback {σ : Type} (g : Group σ) (s : Runtime σ) : Result σ :=
  let r := rollbackLoop g.txs none g.errOnce s
  { err := r.1, group := { g with errOnce := r.2.1 }, rt := g.runCancel r.2.2 }

/-- The loop of `Group.Commit` over the rest of `g.txs`, and what follows
the loop. -/
def commitLoop {σ : Type} (g : Group σ) : List (Tx σ) → Runtime σ → Result σ
  | [], s => { err := none, group := g, rt := g.runCancel s }
  | tx :: rest, s =>
      let r := tx.Commit s.world
      let s1 := { s with world := r.2, log := s.log ++ [Call.commit tx] }
      match r.1 with
      | some err =>
          let rb := Rollback g s1
          { err := some (Errorf tx.Key " commit failed: " err), group := rb.group, rt := rb.rt }
      | none => commitLoop g rest s1

/-- The method `Group.Commit`. -/
def Commit {σ : Type} (g : Group σ) (s : Runtime σ) : Result σ :=
  commitLoop g g.txs s

/-! ## Fixtures -/

/-- The mock of `txgroup_test.go`: `Commit` and `Rollback` both return the
field `err`.  The world counts the calls made. -/
def newTxMock (ptr : Nat) (key : String) (err : Option GoError) (weight : Nat) : Tx Nat :=
  { ptr := ptr, Key := key, Weight := weight,
    Commit := fun w => (err, w + 1), Rollback := fun w => (err, w + 1) }

/-- A runtime in which nothing has happened yet. -/
def Runtime.init : Runtime Nat :=
  { world := 0, next := 0, cancelled := [], log := [] }

/-- The keys of the participants called, with `true` for a commit. -/
def callKeys {σ : Type} (l : List (Call σ)) : List (Bool × String) :=
  l.map (fun c => match c with
    | .commit tx => (true, tx.Key)
    | .rollback tx => (false, tx.Key))

/-- The fixture `txMock` of the tests. -/
def txMock : Tx Nat := newTxMock 1 "tx_mock" none 1

/-- The fixture `txMockErr` of the tests. -/
def txMockErr : Tx Nat := newTxMock 2 "tx_mock_err" (some (.errorString "error")) 0

/-- Two participants that both fail to roll back, `a` first. -/
def groupFailFail : Group Nat :=
  { errOnce := false, cancel := some 0,
    txs := [newTxMock 1 "a" (some (.errorString "ea")) 0,
            newTxMock 2 "b" (some (.errorString "eb")) 1] }

/-- A participant that fails to roll back, followed by one that succeeds. -/
def groupFailOk : Group Nat :=
  { errOnce := false, cancel := some 0,
    txs := [newTxMock 1 "a" (some (.errorString "ea")) 0, newTxMock 2 "b" none 1] }

/-- The scope of a group on cell `0`. -/
def scope0 : Context Nat := .withCancel .background 0

/-! ## Describing what the participants do -/

/-- Calling `Commit` on the participants of the list, in order, from the
world `w`, every call succeeds. -/
def commitsSucceed {σ : Type} : List (Tx σ) → σ → Bool
  | [], _ => true
  | tx :: rest, w => (tx.Commit w).1.isNone && commitsSucceed rest (tx.Commit w).2

/-- The world after `Commit` has been called on the participants of the
list, in order. -/
def worldAfterCommits {σ : Type} : List (Tx σ) → σ → σ
  | [], w => w
  | tx :: rest, w => worldAfterCommits rest (tx.Commit w).2

/-- The world after `Rollback` has been called on the participants of the
list, in order. -/
def worldAfterRollbacks {σ : Type} : List (Tx σ) → σ → σ
  | [], w => w
  | tx :: rest, w => worldAfterRollbacks rest (tx.Rollback w).2

/-- Calling `Rollback` on the participants of the list, in order, from the
world `w`, some call fails. -/
def someRollbackFails {σ : Type} : List (Tx σ) → σ → Bool
  | [], _ => false
  | tx :: rest, w => (tx.Rollback w).1.isSome || someRollbackFails rest (tx.Rollback w).2

/-- A group of three: the second participant fails. -/
def groupMid : Group Nat :=
  { errOnce := false, cancel := some 0,
    txs := [newTxMock 1 "p" none 0, newTxMock 2 "q" (some (.errorString "boom")) 1,
            newTxMock 3 "r" none 2] }

/-- The sequence is in ascending order of weight. -/
def SortedByWeight {σ : Type} (txs : List (Tx σ)) : Prop :=
  txs.Pairwise (fun a b => a.Weight ≤ b.Weight)

instance SortedByWeight_decidable {σ : Type} (txs : List (Tx σ)) :
    Decidable (SortedByWeight txs) := by
  unfold SortedByWeight; infer_instance

/-- The order `less` of `NewContext` never puts `b` before `a`. -/
def weightLE {σ : Type} (a b : Tx σ) : Prop := a.Weight ≤ b.Weight

instance weightLE_decidable {σ : Type} : DecidableRel (weightLE : Tx σ → Tx σ → Prop) :=
  fun a b => Nat.decLe a.Weight b.Weight

instance weightLE_total {σ : Type} : IsTotal (Tx σ) weightLE :=
  ⟨fun a b => Nat.le_total a.Weight b.Weight⟩

instance weightLE_trans {σ : Type} : IsTrans (Tx σ) weightLE :=
  ⟨fun _ _ _ hab hbc => Nat.le_trans hab hbc⟩

/-- An instance of the contract of `sort.Slice`: insertion sort, which is
what `sort.Slice` runs on slices of at most 12 elements. -/
def insertionSorter (σ : Type) : SliceSorter σ where
  run := List.insertionSort weightLE
  perm := List.perm_insertionSort weightLE
  sorted := fun l =>
    (List.sorted_insertionSort weightLE l).imp (fun h => Nat.not_lt.mpr h)

/-- The participant `{key: "x", weight: 2}`. -/
def txX : Tx Nat := newTxMock 1 "x" none 2

/-- The participant `{key: "y", weight: 0}`. -/
def txY : Tx Nat := newTxMock 2 "y" none 0

/-- The call `WithContext(nil, txX, txY)` in a fresh runtime. -/
def createdXY : Group Nat × Context Nat × Runtime Nat :=
  WithContext (insertionSorter Nat) none [txX, txY] Runtime.init

/-- The scope that `AddTx` returns for `txMock` on the scope of `createdXY`. -/
def scopeXYMock : Context Nat :=
  .withValue createdXY.2.1 (.unique txMock.Key) (.tx txMock)

/-- A runtime in which one cell, `0`, has been handed out. -/
def Runtime.oneCell : Runtime Nat :=
  { world := 0, next := 1, cancelled := [], log := [] }

/-- Some layer of the chain binds a participant under `unique(key)`. -/
def Context.bindsTx {σ : Type} : Context σ → String → Bool
  | .background, _ => false
  | .withValue parent k (.tx _), key => k == .unique key || parent.bindsTx key
  | .withValue parent _ (.other _), key => parent.bindsTx key
  | .withCancel parent _, key => parent.bindsTx key

/-- The insertion index in the words of the specification: the first index
whose participant has a weight that is at least `w`, and the length when
there is none. -/
def firstIndexAtLeast {σ : Type} (txs : List (Tx σ)) (w : Nat) : Nat :=
  txs.findIdx (fun t => decide (t.Weight ≥ w))

/-- Two participants that differ at most in what `Rollback` does. -/
def sameButRollback {σ : Type} (a b : Tx σ) : Prop :=
  a.ptr = b.ptr ∧ a.Key = b.Key ∧ a.Weight = b.Weight ∧ a.Commit = b.Commit

/-- A participant like the mock, with separate results for `Commit` and
`Rollback`. -/
def newTxMock2 (ptr : Nat) (key : String) (cerr rerr : Option GoError) (weight : Nat) :
    Tx Nat :=
  { ptr := ptr, Key := key, Weight := weight,
    Commit := fun w => (cerr, w + 1), Rollback := fun w => (rerr, w + 1) }

/-- A group of one participant, of key `a` and weight 1, on cell `0`. -/
def groupTie : Group Nat :=
  { errOnce := false, cancel := some 0, txs := [newTxMock 1 "a" none 1] }

/-- A second participant of weight 1, of key `b`. -/
def txTie : Tx Nat := newTxMock 2 "b" none 1

/-- A second participant of key `x`, of weight 1. -/
def txX2 : Tx Nat := newTxMock 3 "x" none 1

/-- The call `WithContext(nil)`, with no participant, in a fresh runtime. -/
def createdEmpty : Group Nat × Context Nat × Runtime Nat :=
  WithContext (insertionSorter Nat) none [] Runtime.init

/-- A participant that rolls back, followed by one that fails to. -/
def groupOkFail : Group Nat :=
  { errOnce := false, cancel := some 0,
    txs := [newTxMock 1 "a" none 0, newTxMock 2 "b" (some (.errorString "eb")) 1] }

/-- A group whose commit fails at `q` and whose rollbacks all succeed. -/
def groupCleanupOk : Group Nat :=
  { errOnce := false, cancel := some 0,
    txs := [newTxMock2 1 "p" none none 0,
            newTxMock2 2 "q" (some (.errorString "boom")) none 1] }

/-- The group `groupCleanupOk` with rollbacks that fail. -/
def groupCleanupFails : Group Nat :=
  { errOnce := false, cancel := some 0,
    txs := [newTxMock2 1 "p" none (some (.errorString "rp")) 0,
            newTxMock2 2 "q" (some (.errorString "boom")) (some (.errorString "rq")) 1] }

/-! ## Lemmas: contexts -/

theorem Err_of_under {σ : Type} (ctx : Context σ) (c : Nat) (cs : List Nat)
    (hu : ctx.under c = true) (hc : c ∈ cs) : ctx.Err cs = some .canceled := by
  induction ctx with
  | background => simp [Context.under] at hu
  | withValue parent k v ih => exact ih hu
  | withCancel parent cell ih =>
      simp only [Context.under, Bool.or_eq_true, beq_iff_eq] at hu
      by_cases hcell : cell ∈ cs
      · simp [Context.Err, hcell]
      · have hne : cell ≠ c := fun h => hcell (h ▸ hc)
        rcases hu with h | h
        · exact absurd h hne
        · simp [Context.Err, hcell, ih h]

theorem TxFromContext_of_Err {σ : Type} (ctx : Context σ) (key : String) (cs : List Nat)
    (e : GoError) (h : ctx.Err cs = some e) : TxFromContext ctx key cs = .error e := by
  simp [TxFromContext, h]

/-! ## Lemmas: the loops -/

theorem rollbackLoop_rt {σ : Type} (l : List (Tx σ)) :
    ∀ (err : Option GoError) (once : Bool) (s : Runtime σ),
      (rollbackLoop l err once s).2.2 =
        { s with world := worldAfterRollbacks l s.world,
                 log := s.log ++ l.map Call.rollback } := by
  induction l with
  | nil => intro err once s; simp [rollbackLoop, worldAfterRollbacks]
  | cons tx rest ih =>
      intro err once s
      simp only [rollbackLoop]
      split
      · split <;> simp [ih, worldAfterRollbacks]
      · simp [ih, worldAfterRollbacks]

theorem Rollback_rt {σ : Type} (g : Group σ) (s : Runtime σ) :
    (Rollback g s).rt =
      g.runCancel { s with world := worldAfterRollbacks g.txs s.world,
                           log := s.log ++ g.txs.map Call.rollback } := by
  simp [Rollback, rollbackLoop_rt]

theorem runCancel_log {σ : Type} (g : Group σ) (s : Runtime σ) :
    (g.runCancel s).log = s.log := by
  unfold Group.runCancel; split <;> rfl

theorem runCancel_cancelled {σ : Type} (g : Group σ) (s : Runtime σ) (c : Nat)
    (h : g.cancel = some c) : (g.runCancel s).cancelled = c :: s.cancelled := by
  simp [Group.runCancel, h, Runtime.cancel]

theorem Rollback_log {σ : Type} (g : Group σ) (s : Runtime σ) :
    (Rollback g s).rt.log = s.log ++ g.txs.map Call.rollback := by
  rw [Rollback_rt, runCancel_log]

theorem Rollback_cancelled {σ : Type} (g : Group σ) (s : Runtime σ) (c : Nat)
    (h : g.cancel = some c) : (Rollback g s).rt.cancelled = c :: s.cancelled := by
  rw [Rollback_rt, runCancel_cancelled _ _ _ h]

theorem commitLoop_success {σ : Type} (g : Group σ) (l : List (Tx σ)) :
    ∀ s : Runtime σ, commitsSucceed l s.world = true →
      commitLoop g l s =
        { err := none, group := g,
          rt := g.runCancel { s with world := worldAfterCommits l s.world,
                                     log := s.log ++ l.map Call.commit } } := by
  induction l with
  | nil => intro s _; simp [commitLoop, worldAfterCommits]
  | cons tx rest ih =>
      intro s h
      simp only [commitsSucceed, Bool.and_eq_true, Option.isNone_iff_eq_none] at h
      simp only [commitLoop, h.1]
      rw [ih _ h.2]
      simp [worldAfterCommits]

theorem commitLoop_failure {σ : Type} (g : Group σ) (pre : List (Tx σ)) (tk : Tx σ)
    (post : List (Tx σ)) (e : GoError) :
    ∀ s : Runtime σ, commitsSucceed pre s.world = true →
      (tk.Commit (worldAfterCommits pre s.world)).1 = some e →
      commitLoop g (pre ++ tk :: post) s =
        { err := some (Errorf tk.Key " commit failed: " e),
          group := (Rollback g
            { s with world := (tk.Commit (worldAfterCommits pre s.world)).2,
                     log := s.log ++ (pre ++ [tk]).map Call.commit }).group,
          rt := (Rollback g
            { s with world := (tk.Commit (worldAfterCommits pre s.world)).2,
                     log := s.log ++ (pre ++ [tk]).map Call.commit }).rt } := by
  induction pre with
  | nil =>
      intro s _ hk
      simp only [worldAfterCommits] at hk
      simp [commitLoop, hk, worldAfterCommits]
  | cons tx rest ih =>
      intro s h hk
      simp only [commitsSucceed, Bool.and_eq_true, Option.isNone_iff_eq_none] at h
      simp only [worldAfterCommits] at hk
      have hrec := ih { s with world := (tx.Commit s.world).2,
                               log := s.log ++ [Call.commit tx] } h.2 hk
      have hstep : commitLoop g ((tx :: rest) ++ tk :: post) s =
          commitLoop g (rest ++ tk :: post)
            { s with world := (tx.Commit s.world).2, log := s.log ++ [Call.commit tx] } := by
        show commitLoop g (tx :: (rest ++ tk :: post)) s = _
        simp only [commitLoop, h.1]
      rw [hstep, hrec]
      simp [worldAfterCommits]

/-! ## Lemmas: sort.Search and the insertion of AddTx -/

theorem searchLoop_spec (f : Nat → Bool) (n : Nat)
    (hmono : ∀ a b, a ≤ b → b < n → f a = true → f b = true) :
    ∀ fuel i j, i ≤ j → j ≤ n → j - i ≤ fuel →
      (∀ k, k < i → f k = false) → (∀ k, j ≤ k → k < n → f k = true) →
      searchLoop f fuel i j ≤ n
        ∧ (∀ k, k < searchLoop f fuel i j → f k = false)
        ∧ (∀ k, searchLoop f fuel i j ≤ k → k < n → f k = true) := by
  intro fuel
  induction fuel with
  | zero =>
      intro i j hij hjn hfuel hlo hhi
      have heq : i = j := by omega
      subst heq
      exact ⟨hjn, hlo, hhi⟩
  | succ fuel ih =>
      intro i j hij hjn hfuel hlo hhi
      unfold searchLoop
      by_cases hlt : i < j
      · have hh1 : i ≤ (i + j) / 2 := by omega
        have hh2 : (i + j) / 2 < j := by omega
        simp only [hlt, if_true]
        cases hf : f ((i + j) / 2) with
        | false =>
            simp only [Bool.not_false, if_true]
            apply ih ((i + j) / 2 + 1) j (by omega) hjn (by omega) _ hhi
            intro k hk
            cases hfk : f k with
            | false => rfl
            | true =>
                have := hmono k ((i + j) / 2) (by omega) (by omega) hfk
                rw [hf] at this
                exact absurd this (by simp)
        | true =>
            simp only [Bool.not_true, Bool.false_eq_true, if_false]
            apply ih i ((i + j) / 2) hh1 (by omega) (by omega) hlo
            intro k hk hkn
            exact hmono ((i + j) / 2) k hk hkn hf
      · have heq : i = j := by omega
        subst heq
        simp only [lt_irrefl, if_false]
        exact ⟨hjn, hlo, hhi⟩

theorem Search_spec (f : Nat → Bool) (n : Nat)
    (hmono : ∀ a b, a ≤ b → b < n → f a = true → f b = true) :
    Search n f ≤ n
      ∧ (∀ k, k < Search n f → f k = false)
      ∧ (∀ k, Search n f ≤ k → k < n → f k = true) := by
  unfold Search
  apply searchLoop_spec f n hmono n 0 n (Nat.zero_le _) (le_refl _) (by omega)
  · intro k hk; omega
  · intro k hk hkn; omega

theorem shift_set {α : Type} (l : List α) (x : α) :
    ∀ j, j < l.length →
      (l.take (j + 1) ++ l.drop j).set j x = l.take j ++ x :: l.drop j := by
  induction l with
  | nil => intro j h; simp at h
  | cons a l ih =>
      intro j h
      cases j with
      | zero => simp
      | succ j =>
          simp at h
          simp [ih j h]

theorem searchLoop_le (f : Nat → Bool) :
    ∀ fuel i j, i ≤ j → searchLoop f fuel i j ≤ j := by
  intro fuel
  induction fuel with
  | zero => intro i j hij; exact hij
  | succ fuel ih =>
      intro i j hij
      unfold searchLoop
      by_cases hlt : i < j
      · simp only [hlt, if_true]
        split
        · exact ih _ _ (by omega)
        · exact le_trans (ih _ _ (by omega)) (by omega)
      · simp only [hlt, if_false]; exact hij

theorem addTxIndex_le {σ : Type} (txs : List (Tx σ)) (tx : Tx σ) :
    addTxIndex txs tx ≤ txs.length :=
  searchLoop_le _ _ _ _ (Nat.zero_le _)

theorem addTxInsert_eq {σ : Type} (txs : List (Tx σ)) (tx : Tx σ) :
    addTxInsert txs tx =
      txs.take (addTxIndex txs tx) ++ tx :: txs.drop (addTxIndex txs tx) := by
  unfold addTxInsert
  have hle := addTxIndex_le txs tx
  by_cases h : addTxIndex txs tx = txs.length
  · simp [h]
  · simp only [h, if_false]
    exact shift_set txs tx _ (by omega)

theorem addTxIndex_spec {σ : Type} (txs : List (Tx σ)) (tx : Tx σ)
    (hs : SortedByWeight txs) :
    (∀ k (hk : k < txs.length), k < addTxIndex txs tx → txs[k].Weight < tx.Weight)
      ∧ (∀ k (hk : k < txs.length), addTxIndex txs tx ≤ k → tx.Weight ≤ txs[k].Weight) := by
  have hmono : ∀ a b, a ≤ b → b < txs.length →
      (match txs[a]? with
        | some t => decide (t.Weight ≥ tx.Weight)
        | none => false) = true →
      (match txs[b]? with
        | some t => decide (t.Weight ≥ tx.Weight)
        | none => false) = true := by
    intro a b hab hb hfa
    have ha : a < txs.length := by omega
    simp only [List.getElem?_eq_getElem ha, List.getElem?_eq_getElem hb,
      decide_eq_true_eq] at hfa ⊢
    rcases Nat.lt_or_eq_of_le hab with hlt | heq
    · have := (List.pairwise_iff_getElem.mp hs) a b ha hb hlt
      omega
    · subst heq; exact hfa
  have hsp := Search_spec _ txs.length hmono
  refine ⟨?_, ?_⟩
  · intro k hk hlt
    have := hsp.2.1 k hlt
    simp only [List.getElem?_eq_getElem hk, decide_eq_false_iff_not] at this
    omega
  · intro k hk hle
    have := hsp.2.2 k hle hk
    simp only [List.getElem?_eq_getElem hk, decide_eq_true_eq] at this
    exact this

theorem addTxInsert_sorted {σ : Type} (txs : List (Tx σ)) (tx : Tx σ)
    (hs : SortedByWeight txs) : SortedByWeight (addTxInsert txs tx) := by
  have hsp := addTxIndex_spec txs tx hs
  rw [addTxInsert_eq]
  unfold SortedByWeight at hs ⊢
  have hsplit : (txs.take (addTxIndex txs tx) ++ txs.drop (addTxIndex txs tx)).Pairwise
      (fun a b => a.Weight ≤ b.Weight) := by
    rw [List.take_append_drop]; exact hs
  rw [List.pairwise_append] at hsplit
  have hdrop : ∀ b ∈ txs.drop (addTxIndex txs tx), tx.Weight ≤ b.Weight := by
    intro b hb
    obtain ⟨i, hi, rfl⟩ := List.mem_drop_iff_getElem.mp hb
    exact hsp.2 _ (by omega) (by omega)
  have htake : ∀ a ∈ txs.take (addTxIndex txs tx), a.Weight < tx.Weight := by
    intro a ha
    obtain ⟨i, hi, rfl⟩ := List.mem_take_iff_getElem.mp ha
    exact hsp.1 i (by omega) (by omega)
  rw [List.pairwise_append]
  refine ⟨hsplit.1, ?_, ?_⟩
  · exact List.pairwise_cons.mpr ⟨hdrop, hsplit.2.1⟩
  · intro a ha b hb
    rcases List.mem_cons.mp hb with rfl | hb
    · exact Nat.le_of_lt (htake a ha)
    · exact hsplit.2.2 a ha b hb

theorem addTxInsert_perm {σ : Type} (txs : List (Tx σ)) (tx : Tx σ) :
    (addTxInsert txs tx).Perm (tx :: txs) := by
  rw [addTxInsert_eq]
  have h : (txs.take (addTxIndex txs tx) ++ tx :: txs.drop (addTxIndex txs tx)).Perm
      (tx :: (txs.take (addTxIndex txs tx) ++ txs.drop (addTxIndex txs tx))) :=
    List.perm_middle
  rw [List.take_append_drop] at h
  exact h

theorem NewContext_txs_perm {σ : Type} (srt : SliceSorter σ) (ctx : Option (Context σ))
    (txs : List (Tx σ)) (s : Runtime σ) : (NewContext srt ctx txs s).2.2.1.Perm txs := by
  simp only [NewContext]
  split
  · exact srt.perm txs
  · exact List.Perm.refl _

theorem NewContext_txs_sorted {σ : Type} (srt : SliceSorter σ) (ctx : Option (Context σ))
    (txs : List (Tx σ)) (s : Runtime σ) : SortedByWeight (NewContext srt ctx txs s).2.2.1 := by
  simp only [NewContext, SortedByWeight]
  split
  · exact (srt.sorted txs).imp (fun h => Nat.not_lt.mp h)
  · rename_i hlen
    match txs, hlen with
    | [], _ => exact List.Pairwise.nil
    | [a], _ => exact List.pairwise_singleton _ _
    | a :: b :: l, hlen => simp at hlen

theorem foldl_withValue_Err {σ : Type} (txs : List (Tx σ)) (cs : List Nat) :
    ∀ ctx : Context σ,
      (txs.foldl (fun c tx => Context.withValue c (.unique tx.Key) (.tx tx)) ctx).Err cs
        = ctx.Err cs := by
  induction txs with
  | nil => intro ctx; rfl
  | cons a l ih => intro ctx; simp only [List.foldl_cons]; rw [ih]; rfl

theorem foldl_withValue_under {σ : Type} (txs : List (Tx σ)) (c : Nat) :
    ∀ ctx : Context σ,
      (txs.foldl (fun c tx => Context.withValue c (.unique tx.Key) (.tx tx)) ctx).under c
        = ctx.under c := by
  induction txs with
  | nil => intro ctx; rfl
  | cons a l ih => intro ctx; simp only [List.foldl_cons]; rw [ih]; rfl

theorem foldl_withValue_Value {σ : Type} (txs : List (Tx σ)) (tx : Tx σ) :
    (txs.map Tx.Key).Nodup → tx ∈ txs → ∀ ctx : Context σ,
      (txs.foldl (fun c t => Context.withValue c (.unique t.Key) (.tx t)) ctx).Value
        (.unique tx.Key) = some (.tx tx) := by
  induction txs using List.reverseRecOn with
  | nil => intro _ hmem; simp at hmem
  | append_singleton l a ih =>
      intro hnd hmem ctx
      rw [List.foldl_append]
      simp only [List.foldl_cons, List.foldl_nil, Context.Value]
      rw [List.map_append, List.nodup_append] at hnd
      by_cases hk : a.Key = tx.Key
      · rcases List.mem_append.mp hmem with hl | ha
        · exfalso
          have h1 : tx.Key ∈ l.map Tx.Key := List.mem_map_of_mem _ hl
          have h2 : tx.Key ∈ [a].map Tx.Key := by simp [hk]
          exact hnd.2.2 h1 h2
        · have : tx = a := by simpa using ha
          subst this
          simp
      · rcases List.mem_append.mp hmem with hl | ha
        · have hne : CtxKey.unique a.Key ≠ CtxKey.unique tx.Key := by
            intro h; injection h with h; exact hk h
          simp only [hne, if_false]
          exact ih hnd.1 hl ctx
        · have : tx = a := by simpa using ha
          subst this
          exact absurd rfl hk

theorem Err_canceled {σ : Type} (ctx : Context σ) (cs : List Nat) (e : GoError)
    (h : ctx.Err cs = some e) : e = .canceled := by
  induction ctx with
  | background => simp [Context.Err] at h
  | withValue parent k v ih => exact ih h
  | withCancel parent cell ih =>
      simp only [Context.Err] at h
      split at h
      · injection h with h; exact h.symm
      · exact ih h

theorem commitLoop_cancelled {σ : Type} (g : Group σ) (c : Nat) (hc : g.cancel = some c)
    (l : List (Tx σ)) :
    ∀ s : Runtime σ, (commitLoop g l s).rt.cancelled = c :: s.cancelled := by
  induction l with
  | nil => intro s; simp [commitLoop, runCancel_cancelled _ _ c hc]
  | cons tx rest ih =>
      intro s
      simp only [commitLoop]
      split
      · simp [Rollback_cancelled _ _ c hc]
      · rw [ih]

theorem commitLoop_cancel {σ : Type} (g : Group σ) (l : List (Tx σ)) :
    ∀ s : Runtime σ, (commitLoop g l s).group.cancel = g.cancel := by
  induction l with
  | nil => intro s; rfl
  | cons tx rest ih =>
      intro s
      simp only [commitLoop]
      split
      · rfl
      · rw [ih]

theorem AddTx_cancel {σ : Type} (g : Group σ) (ctx : Context σ) (tx : Tx σ)
    (cs : List Nat) : (AddTx g ctx tx cs).1.cancel = g.cancel := by
  unfold AddTx; split <;> rfl

theorem NewContext_Value {σ : Type} (srt : SliceSorter σ) (parent : Option (Context σ))
    (txs : List (Tx σ)) (s : Runtime σ) (tx : Tx σ)
    (hkeys : (txs.map Tx.Key).Nodup) (hmem : tx ∈ txs) :
    (NewContext srt parent txs s).1.Value (.unique tx.Key) = some (.tx tx) := by
  have hperm := NewContext_txs_perm srt parent txs s
  have hnd : ((NewContext srt parent txs s).2.2.1.map Tx.Key).Nodup :=
    ((hperm.map Tx.Key).nodup_iff).mpr hkeys
  have hm : tx ∈ (NewContext srt parent txs s).2.2.1 := hperm.mem_iff.mpr hmem
  exact foldl_withValue_Value _ tx hnd hm _

theorem NewContext_Err {σ : Type} (srt : SliceSorter σ) (parent : Option (Context σ))
    (txs : List (Tx σ)) (s : Runtime σ) (cs : List Nat) :
    (NewContext srt parent txs s).1.Err cs =
      if s.next ∈ cs then some .canceled
      else match parent with
        | none => none
        | some p => p.Err cs := by
  simp only [NewContext, WithCancel, Context.Err, foldl_withValue_Err]
  cases parent <;> rfl

theorem TxFromContext_of_Value {σ : Type} (ctx : Context σ) (tx : Tx σ) (cs : List Nat)
    (herr : ctx.Err cs = none) (hval : ctx.Value (.unique tx.Key) = some (.tx tx)) :
    TxFromContext ctx tx.Key cs = .ok tx := by
  simp [TxFromContext, herr, hval]

theorem AddTx_ok {σ : Type} (g : Group σ) (ctx : Context σ) (tx : Tx σ) (cs : List Nat)
    (h : ctx.Err cs = none) :
    AddTx g ctx tx cs =
      ({ g with txs := addTxInsert g.txs tx },
        .ok (.withValue ctx (.unique tx.Key) (.tx tx))) := by
  simp [AddTx, h]

theorem AddTx_err {σ : Type} (g : Group σ) (ctx : Context σ) (tx : Tx σ) (cs : List Nat)
    (e : GoError) (h : ctx.Err cs = some e) : AddTx g ctx tx cs = (g, .error e) := by
  simp [AddTx, h]

/-! ## Commit -/

/-- C1: when the commits of `pre` succeed and the commit of `tk` fails with
cause `e`, in a group whose sequence is `pre ++ tk :: post`, `Commit` calls
`Commit` on the participants of `pre` and on `tk`, in that order and once
each, on none of `post`, then `Rollback` on every participant of the
sequence, and returns the error whose message is the key of `tk` followed by
" commit failed: " and the message of `e`, and which wraps `e`. -/
theorem Commit_failing_participant {σ : Type} (g : Group σ) (s : Runtime σ)
    (pre : List (Tx σ)) (tk : Tx σ) (post : List (Tx σ)) (e : GoError)
    (hseq : g.txs = pre ++ tk :: post)
    (hpre : commitsSucceed pre s.world = true)
    (hk : (tk.Commit (worldAfterCommits pre s.world)).1 = some e) :
    (Commit g s).rt.log =
        s.log ++ (pre ++ [tk]).map Call.commit ++ (pre ++ tk :: post).map Call.rollback
      ∧ (Commit g s).err = some (.wrapError (tk.Key ++ " commit failed: " ++ e.Error) e)
      ∧ (Commit g s).err.bind GoError.Unwrap = some e := by
  have h := commitLoop_failure g pre tk post e s hpre hk
  unfold Commit
  rw [hseq, h]
  refine ⟨?_, ?_, ?_⟩
  · simp [Rollback_log, hseq]
  · simp [Errorf]
  · simp [Errorf, GoError.Unwrap]

/-- Instance: in `groupMid` the commit of `p` succeeds and the commit of `q`
fails. -/
theorem Commit_failing_participant_witness :
    (groupMid.txs = [newTxMock 1 "p" none 0] ++
        newTxMock 2 "q" (some (.errorString "boom")) 1 :: [newTxMock 3 "r" none 2]
      ∧ commitsSucceed [newTxMock 1 "p" none 0] Runtime.init.world = true
      ∧ ((newTxMock 2 "q" (some (.errorString "boom")) 1).Commit
          (worldAfterCommits [newTxMock 1 "p" none 0] Runtime.init.world)).1
          = some (.errorString "boom"))
    ∧ ((Commit groupMid Runtime.init).rt.log =
        Runtime.init.log
          ++ ([newTxMock 1 "p" none 0] ++
                [newTxMock 2 "q" (some (.errorString "boom")) 1]).map Call.commit
          ++ ([newTxMock 1 "p" none 0] ++
                newTxMock 2 "q" (some (.errorString "boom")) 1 ::
                  [newTxMock 3 "r" none 2]).map Call.rollback
      ∧ (Commit groupMid Runtime.init).err =
          some (.wrapError ((newTxMock 2 "q" (some (.errorString "boom")) 1).Key
            ++ " commit failed: " ++ (GoError.errorString "boom").Error)
            (.errorString "boom"))
      ∧ (Commit groupMid Runtime.init).err.bind GoError.Unwrap
          = some (.errorString "boom")) :=
  ⟨⟨rfl, by decide, by decide⟩,
   Commit_failing_participant groupMid Runtime.init [newTxMock 1 "p" none 0]
     (newTxMock 2 "q" (some (.errorString "boom")) 1) [newTxMock 3 "r" none 2]
     (.errorString "boom") rfl (by decide) (by decide)⟩

/-- C2: when every commit of the sequence succeeds, `Commit` calls `Commit`
on each participant once, in sequence order, calls no `Rollback`, returns no
error, and cancels the cell of the group, so that `TxFromContext` fails on
the scope of the group and on every scope derived from it. -/
theorem Commit_success {σ : Type} (g : Group σ) (s : Runtime σ)
    (h : commitsSucceed g.txs s.world = true) :
    (Commit g s).err = none
      ∧ (Commit g s).rt.log = s.log ++ g.txs.map Call.commit
      ∧ ∀ (c : Nat) (ctx : Context σ) (key : String),
          g.cancel = some c → ctx.under c = true →
            TxFromContext ctx key (Commit g s).rt.cancelled = .error .canceled := by
  unfold Commit
  rw [commitLoop_success g g.txs s h]
  refine ⟨rfl, ?_, ?_⟩
  · simp [runCancel_log]
  · intro c ctx key hc hu
    apply TxFromContext_of_Err
    apply Err_of_under _ c _ hu
    simp [runCancel_cancelled _ _ c hc]

/-- Instance: the group made by `WithContext(nil, txX, txY)`, committed right
away. -/
theorem Commit_success_witness :
    commitsSucceed createdXY.1.txs createdXY.2.2.world = true
      ∧ (Commit createdXY.1 createdXY.2.2).err = none
      ∧ (Commit createdXY.1 createdXY.2.2).rt.log
          = createdXY.2.2.log ++ createdXY.1.txs.map Call.commit
      ∧ callKeys (Commit createdXY.1 createdXY.2.2).rt.log = [(true, "y"), (true, "x")]
      ∧ TxFromContext createdXY.2.1 "x" (Commit createdXY.1 createdXY.2.2).rt.cancelled
          = .error .canceled :=
  ⟨by decide,
   (Commit_success createdXY.1 createdXY.2.2 (by decide)).1,
   (Commit_success createdXY.1 createdXY.2.2 (by decide)).2.1,
   by decide,
   (Commit_success createdXY.1 createdXY.2.2 (by decide)).2.2 0 createdXY.2.1 "x" rfl
     (by decide)⟩

/-! ## Rollback -/

/-- C3: with two participants that both fail to roll back, `Rollback`
attempts both, and returns the bare error of the second one: not the error
of the first one wrapped with its key. -/
theorem Rollback_two_failures_returns_last :
    callKeys (Rollback groupFailFail Runtime.init).rt.log = [(false, "a"), (false, "b")]
      ∧ (Rollback groupFailFail Runtime.init).err = some (.errorString "eb")
      ∧ (Rollback groupFailFail Runtime.init).err
          ≠ some (Errorf "a" " rollback failed: " (.errorString "ea")) := by
  decide

/-- C4: with a participant that fails to roll back followed by one that
succeeds, `Rollback` returns nil. -/
theorem Rollback_failure_then_success_returns_nil :
    someRollbackFails groupFailOk.txs Runtime.init.world = true
      ∧ (Rollback groupFailOk Runtime.init).err = none := by
  decide

/-- C5: whatever the participants return, `Rollback` calls `Rollback` on
every participant of the sequence once, in sequence order, and cancels the
cell of the group, so that the scope of the group and every scope derived
from it is cancelled when it returns. -/
theorem Rollback_unconditional {σ : Type} (g : Group σ) (s : Runtime σ) :
    (Rollback g s).rt.log = s.log ++ g.txs.map Call.rollback
      ∧ ∀ (c : Nat) (ctx : Context σ),
          g.cancel = some c → ctx.under c = true →
            ctx.Err (Rollback g s).rt.cancelled = some .canceled := by
  refine ⟨Rollback_log g s, ?_⟩
  intro c ctx hc hu
  apply Err_of_under _ c _ hu
  simp [Rollback_cancelled _ _ c hc]

/-- Instance: `groupFailOk`, whose first participant fails to roll back. -/
theorem Rollback_unconditional_witness :
    callKeys (Rollback groupFailOk Runtime.init).rt.log = [(false, "a"), (false, "b")]
      ∧ (Rollback groupFailOk Runtime.init).rt.log
          = Runtime.init.log ++ groupFailOk.txs.map Call.rollback
      ∧ scope0.Err (Rollback groupFailOk Runtime.init).rt.cancelled = some .canceled :=
  ⟨by decide,
   (Rollback_unconditional groupFailOk Runtime.init).1,
   (Rollback_unconditional groupFailOk Runtime.init).2 0 scope0 rfl (by decide)⟩

/-! ## Creation and registration -/

/-- C6: for participants of pairwise distinct weights, the sequence of the
group made by `WithContext` is a permutation of the participants passed in,
in strictly ascending order of weight, and a `Commit` whose commits succeed
calls the participants in that order. -/
theorem WithContext_sorted {σ : Type} (srt : SliceSorter σ) (parent : Option (Context σ))
    (txs : List (Tx σ)) (s : Runtime σ) (hw : (txs.map Tx.Weight).Nodup) :
    (WithContext srt parent txs s).1.txs.Perm txs
      ∧ (WithContext srt parent txs s).1.txs.Pairwise (fun a b => a.Weight < b.Weight)
      ∧ ∀ s1 : Runtime σ,
          commitsSucceed (WithContext srt parent txs s).1.txs s1.world = true →
            (Commit (WithContext srt parent txs s).1 s1).rt.log
              = s1.log ++ (WithContext srt parent txs s).1.txs.map Call.commit := by
  have hperm := NewContext_txs_perm srt parent txs s
  have hsorted := NewContext_txs_sorted srt parent txs s
  refine ⟨hperm, ?_, ?_⟩
  · have hnd : ((NewContext srt parent txs s).2.2.1.map Tx.Weight).Nodup :=
      ((hperm.map Tx.Weight).nodup_iff).mpr hw
    have hne : (NewContext srt parent txs s).2.2.1.Pairwise
        (fun a b => a.Weight ≠ b.Weight) := List.pairwise_map.mp hnd
    exact (hsorted.and hne).imp (fun h => lt_of_le_of_ne h.1 h.2)
  · intro s1 h
    unfold Commit
    rw [commitLoop_success _ _ s1 h]
    simp [runCancel_log]

/-- Instance: `{key: "x", weight: 2}` and `{key: "y", weight: 0}` passed
together commit `y` and then `x`. -/
theorem WithContext_sorted_witness :
    ([txX, txY].map Tx.Weight).Nodup
      ∧ createdXY.1.txs.Perm [txX, txY]
      ∧ createdXY.1.txs.Pairwise (fun a b => a.Weight < b.Weight)
      ∧ createdXY.1.txs.map Tx.Key = ["y", "x"]
      ∧ (Commit createdXY.1 createdXY.2.2).rt.log
          = createdXY.2.2.log ++ createdXY.1.txs.map Call.commit
      ∧ callKeys (Commit createdXY.1 createdXY.2.2).rt.log = [(true, "y"), (true, "x")] :=
  ⟨by decide,
   (WithContext_sorted (insertionSorter Nat) none [txX, txY] Runtime.init (by decide)).1,
   (WithContext_sorted (insertionSorter Nat) none [txX, txY] Runtime.init (by decide)).2.1,
   by decide,
   (WithContext_sorted (insertionSorter Nat) none [txX, txY] Runtime.init (by decide)).2.2
     createdXY.2.2 (by decide),
   by decide⟩

/-- C7: when the sequence of the group is in ascending order of weight and
the scope is not cancelled, `AddTx` succeeds and leaves a sequence that is in
ascending order of weight, is one longer, and holds the previous
participants, each as many times as before, and `tx`. -/
theorem AddTx_keeps_sorted {σ : Type} (g : Group σ) (ctx : Context σ) (tx : Tx σ)
    (cs : List Nat) (hs : SortedByWeight g.txs) (hok : ctx.Err cs = none) :
    (AddTx g ctx tx cs).2 = .ok (.withValue ctx (.unique tx.Key) (.tx tx))
      ∧ SortedByWeight (AddTx g ctx tx cs).1.txs
      ∧ (AddTx g ctx tx cs).1.txs.length = g.txs.length + 1
      ∧ (AddTx g ctx tx cs).1.txs.Perm (tx :: g.txs) := by
  rw [AddTx_ok g ctx tx cs hok]
  refine ⟨rfl, addTxInsert_sorted _ _ hs, ?_, addTxInsert_perm _ _⟩
  simpa using (addTxInsert_perm g.txs tx).length_eq

/-- Instance: `txMock`, of weight 1, added to the group of `txY` and `txX`. -/
theorem AddTx_keeps_sorted_witness :
    (SortedByWeight createdXY.1.txs ∧ createdXY.2.1.Err [] = none)
      ∧ ((AddTx createdXY.1 createdXY.2.1 txMock []).2 = .ok scopeXYMock
        ∧ SortedByWeight (AddTx createdXY.1 createdXY.2.1 txMock []).1.txs
        ∧ (AddTx createdXY.1 createdXY.2.1 txMock []).1.txs.length
            = createdXY.1.txs.length + 1
        ∧ (AddTx createdXY.1 createdXY.2.1 txMock []).1.txs.Perm (txMock :: createdXY.1.txs))
      ∧ (AddTx createdXY.1 createdXY.2.1 txMock []).1.txs.map Tx.Key
          = ["y", "tx_mock", "x"] :=
  ⟨⟨by decide, by decide⟩,
   AddTx_keeps_sorted createdXY.1 createdXY.2.1 txMock []
     (by decide) (by decide),
   by decide⟩

/-- C8: when the parent scope is not cancelled, the participants have
pairwise distinct keys and `tx` is one of them, `TxFromContext` on the scope
returned by `NewContext`, which is the scope returned by `WithContext`, with
the key of `tx` returns `tx` and no error: right after the creation (the
cell that `context.WithCancel` hands out is new, so it is not cancelled yet),
and for as long as the scope is not cancelled. -/
theorem TxFromContext_registered {σ : Type} (srt : SliceSorter σ)
    (parent : Option (Context σ)) (txs : List (Tx σ)) (s : Runtime σ) (tx : Tx σ)
    (hparent : ∀ p, parent = some p → p.Err s.cancelled = none)
    (hfresh : s.next ∉ s.cancelled)
    (hkeys : (txs.map Tx.Key).Nodup) (hmem : tx ∈ txs) :
    TxFromContext (NewContext srt parent txs s).1 tx.Key
        (NewContext srt parent txs s).2.2.2.cancelled = .ok tx
      ∧ TxFromContext (WithContext srt parent txs s).2.1 tx.Key
        (WithContext srt parent txs s).2.2.cancelled = .ok tx
      ∧ ∀ cs, (NewContext srt parent txs s).1.Err cs = none →
          TxFromContext (NewContext srt parent txs s).1 tx.Key cs = .ok tx := by
  have hval := NewContext_Value srt parent txs s tx hkeys hmem
  have herr : (NewContext srt parent txs s).1.Err (NewContext srt parent txs s).2.2.2.cancelled
      = none := by
    rw [NewContext_Err]
    have hc : (NewContext srt parent txs s).2.2.2.cancelled = s.cancelled := rfl
    rw [hc, if_neg hfresh]
    cases parent with
    | none => rfl
    | some p => exact hparent p rfl
  exact ⟨TxFromContext_of_Value _ tx _ herr hval, TxFromContext_of_Value _ tx _ herr hval,
    fun cs h => TxFromContext_of_Value _ tx cs h hval⟩

/-- Instance: `txX` looked up in the scope made from the scope `scope0`. -/
theorem TxFromContext_registered_witness :
    ((∀ p, some scope0 = some p → p.Err Runtime.oneCell.cancelled = none)
        ∧ Runtime.oneCell.next ∉ Runtime.oneCell.cancelled
        ∧ ([txX, txY].map Tx.Key).Nodup ∧ txX ∈ [txX, txY])
      ∧ TxFromContext
          (NewContext (insertionSorter Nat) (some scope0) [txX, txY] Runtime.oneCell).1
          txX.Key
          (NewContext (insertionSorter Nat) (some scope0) [txX, txY]
            Runtime.oneCell).2.2.2.cancelled = .ok txX
      ∧ TxFromContext
          (WithContext (insertionSorter Nat) (some scope0) [txX, txY] Runtime.oneCell).2.1
          txX.Key
          (WithContext (insertionSorter Nat) (some scope0) [txX, txY]
            Runtime.oneCell).2.2.cancelled = .ok txX
      ∧ ∀ cs,
          (NewContext (insertionSorter Nat) (some scope0) [txX, txY] Runtime.oneCell).1.Err cs
            = none →
          TxFromContext
            (NewContext (insertionSorter Nat) (some scope0) [txX, txY] Runtime.oneCell).1
            txX.Key cs = .ok txX :=
  ⟨⟨fun p h => by injection h with h; subst h; decide, by decide, by decide,
      List.mem_cons_self _ _⟩,
   TxFromContext_registered (insertionSorter Nat) (some scope0) [txX, txY] Runtime.oneCell txX
     (fun p h => by injection h with h; subst h; decide) (by decide) (by decide)
     (List.mem_cons_self _ _)⟩

/-- C9: on a cancelled scope `TxFromContext` returns the error of the scope,
which is `context.Canceled`, and no participant, whatever the key and
whatever is bound to it; the scope of a group, and every scope derived from
it, is in that case after `Rollback` and after `Commit`. -/
theorem TxFromContext_cancelled {σ : Type} (ctx : Context σ) (key : String)
    (cs : List Nat) (e : GoError) (h : ctx.Err cs = some e) :
    TxFromContext ctx key cs = .error e
      ∧ e = .canceled
      ∧ ∀ (g : Group σ) (s : Runtime σ) (c : Nat) (scope : Context σ),
          g.cancel = some c → scope.under c = true →
            TxFromContext scope key (Rollback g s).rt.cancelled = .error .canceled
              ∧ TxFromContext scope key (Commit g s).rt.cancelled = .error .canceled := by
  refine ⟨TxFromContext_of_Err ctx key cs e h, Err_canceled ctx cs e h, ?_⟩
  intro g s c scope hc hu
  constructor
  · apply TxFromContext_of_Err
    apply Err_of_under _ c _ hu
    simp [Rollback_cancelled _ _ c hc]
  · apply TxFromContext_of_Err
    apply Err_of_under _ c _ hu
    simp [Commit, commitLoop_cancelled g c hc]

/-- Instance: the key `x`, bound in the scope of `createdXY`, looked up once
the cell `0` is cancelled. -/
theorem TxFromContext_cancelled_witness :
    TxFromContext createdXY.2.1 "x" [] = .ok txX
      ∧ createdXY.2.1.Err [0] = some .canceled
      ∧ TxFromContext createdXY.2.1 "x" [0] = .error .canceled
      ∧ TxFromContext createdXY.2.1 "x" (Rollback createdXY.1 createdXY.2.2).rt.cancelled
          = .error .canceled
      ∧ TxFromContext createdXY.2.1 "x" (Commit createdXY.1 createdXY.2.2).rt.cancelled
          = .error .canceled :=
  ⟨rfl, by decide,
   (TxFromContext_cancelled createdXY.2.1 "x" [0] .canceled (by decide)).1,
   ((TxFromContext_cancelled createdXY.2.1 "x" [0] .canceled (by decide)).2.2
      createdXY.1 createdXY.2.2 0 createdXY.2.1 rfl (by decide)).1,
   ((TxFromContext_cancelled createdXY.2.1 "x" [0] .canceled (by decide)).2.2
      createdXY.1 createdXY.2.2 0 createdXY.2.1 rfl (by decide)).2⟩

/-- C10: on a cancelled scope `AddTx` returns the error of the scope, which
is `context.Canceled`, and no scope, and leaves the group as it was; a scope
that `AddTx` returned earlier for a group that has since run `Rollback` or
`Commit` is such a scope. -/
theorem AddTx_cancelled {σ : Type} (g : Group σ) (ctx : Context σ) (tx : Tx σ)
    (cs : List Nat) (e : GoError) (h : ctx.Err cs = some e) :
    AddTx g ctx tx cs = (g, .error e)
      ∧ e = .canceled
      ∧ ∀ (g0 : Group σ) (ctx0 : Context σ) (tx0 : Tx σ) (cs0 : List Nat) (c : Nat)
          (s : Runtime σ),
          g0.cancel = some c → ctx0.under c = true →
          (AddTx g0 ctx0 tx0 cs0).2 = .ok ctx →
            AddTx (Rollback (AddTx g0 ctx0 tx0 cs0).1 s).group ctx tx
                (Rollback (AddTx g0 ctx0 tx0 cs0).1 s).rt.cancelled
              = ((Rollback (AddTx g0 ctx0 tx0 cs0).1 s).group, .error .canceled)
            ∧ AddTx (Commit (AddTx g0 ctx0 tx0 cs0).1 s).group ctx tx
                (Commit (AddTx g0 ctx0 tx0 cs0).1 s).rt.cancelled
              = ((Commit (AddTx g0 ctx0 tx0 cs0).1 s).group, .error .canceled) := by
  refine ⟨AddTx_err g ctx tx cs e h, Err_canceled ctx cs e h, ?_⟩
  intro g0 ctx0 tx0 cs0 c s hc hu hret
  have hc1 : (AddTx g0 ctx0 tx0 cs0).1.cancel = some c := by rw [AddTx_cancel]; exact hc
  have hctx : ctx.under c = true := by
    unfold AddTx at hret
    split at hret
    · simp at hret
    · simp only [Except.ok.injEq] at hret
      rw [← hret]; exact hu
  constructor
  · have herr : ctx.Err (Rollback (AddTx g0 ctx0 tx0 cs0).1 s).rt.cancelled
        = some .canceled := by
      apply Err_of_under _ c _ hctx
      simp [Rollback_cancelled _ _ c hc1]
    exact AddTx_err _ ctx tx _ _ herr
  · have herr : ctx.Err (Commit (AddTx g0 ctx0 tx0 cs0).1 s).rt.cancelled
        = some .canceled := by
      apply Err_of_under _ c _ hctx
      simp [Commit, commitLoop_cancelled _ c hc1]
    exact AddTx_err _ ctx tx _ _ herr

/-- Instance: `AddTx` on the scope that an earlier `AddTx` returned, after the
group has been rolled back. -/
theorem AddTx_cancelled_witness :
    scopeXYMock.Err [0] = some .canceled
      ∧ AddTx createdXY.1 scopeXYMock txMockErr [0] = (createdXY.1, .error .canceled)
      ∧ (AddTx createdXY.1 createdXY.2.1 txMock []).2 = .ok scopeXYMock
      ∧ AddTx (Rollback (AddTx createdXY.1 createdXY.2.1 txMock []).1 createdXY.2.2).group
            scopeXYMock txMockErr
            (Rollback (AddTx createdXY.1 createdXY.2.1 txMock []).1
              createdXY.2.2).rt.cancelled
          = ((Rollback (AddTx createdXY.1 createdXY.2.1 txMock []).1 createdXY.2.2).group,
              .error .canceled) :=
  ⟨by decide,
   (AddTx_cancelled createdXY.1 scopeXYMock txMockErr [0] .canceled (by decide)).1,
   rfl,
   ((AddTx_cancelled createdXY.1 scopeXYMock txMockErr [0] .canceled (by decide)).2.2
      createdXY.1 createdXY.2.1 txMock [] 0 createdXY.2.2 rfl (by decide) rfl).1⟩

/-! ## Lemmas: the result of the rollback loop -/

theorem rollbackLoop_append {σ : Type} (l1 l2 : List (Tx σ)) :
    ∀ (err : Option GoError) (once : Bool) (s : Runtime σ),
      rollbackLoop (l1 ++ l2) err once s =
        rollbackLoop l2 (rollbackLoop l1 err once s).1 (rollbackLoop l1 err once s).2.1
          (rollbackLoop l1 err once s).2.2 := by
  induction l1 with
  | nil => intro err once s; rfl
  | cons tx rest ih =>
      intro err once s
      show rollbackLoop (tx :: (rest ++ l2)) err once s = _
      simp only [rollbackLoop]
      split
      · split <;> exact ih _ _ _
      · exact ih _ _ _

theorem rollbackLoop_once {σ : Type} (l : List (Tx σ)) :
    ∀ (err : Option GoError) (once : Bool) (s : Runtime σ),
      (rollbackLoop l err once s).2.1 = (once || someRollbackFails l s.world) := by
  induction l with
  | nil => intro err once s; simp [rollbackLoop, someRollbackFails]
  | cons tx rest ih =>
      intro err once s
      simp only [rollbackLoop, someRollbackFails]
      split
      · rename_i e he
        split <;> simp [ih, he]
      · rename_i he
        simp [ih, he]

theorem rollbackLoop_no_failure {σ : Type} (l : List (Tx σ)) :
    ∀ (once : Bool) (s : Runtime σ), someRollbackFails l s.world = false →
      (rollbackLoop l none once s).1 = none := by
  induction l with
  | nil => intro once s _; rfl
  | cons tx rest ih =>
      intro once s h
      simp only [someRollbackFails, Bool.or_eq_false_iff] at h
      have h1 : (tx.Rollback s.world).1 = none := by
        cases hr : (tx.Rollback s.world).1 with
        | none => rfl
        | some e => rw [hr] at h; simp at h
      simp only [rollbackLoop, h1]
      exact ih _ _ h.2

theorem rollbackLoop_world {σ : Type} (l : List (Tx σ)) (err : Option GoError)
    (once : Bool) (s : Runtime σ) :
    (rollbackLoop l err once s).2.2.world = worldAfterRollbacks l s.world := by
  rw [rollbackLoop_rt]

theorem commitLoop_txs {σ : Type} (g : Group σ) (l : List (Tx σ)) :
    ∀ s : Runtime σ, (commitLoop g l s).group.txs = g.txs := by
  induction l with
  | nil => intro s; rfl
  | cons tx rest ih =>
      intro s
      simp only [commitLoop]
      split
      · rfl
      · rw [ih]

theorem Rollback_snoc {σ : Type} (g : Group σ) (s : Runtime σ) (init : List (Tx σ))
    (last : Tx σ) (h : g.txs = init ++ [last]) :
    (Rollback g s).err =
      match (last.Rollback (worldAfterRollbacks init s.world)).1 with
      | none => none
      | some e =>
          if g.errOnce || someRollbackFails init s.world then some e
          else some (Errorf last.Key " rollback failed: " e) := by
  simp only [Rollback, h, rollbackLoop_append]
  simp only [rollbackLoop, rollbackLoop_world, rollbackLoop_once]
  split
  · rename_i e he
    simp only [he]
    split
    · rename_i hc; simp [hc]
    · rename_i hc; simp [hc]
  · rename_i he
    simp only [he]

theorem addTxIndex_eq_first {σ : Type} (txs : List (Tx σ)) (tx : Tx σ)
    (hs : SortedByWeight txs) : addTxIndex txs tx = firstIndexAtLeast txs tx.Weight := by
  have hsp := addTxIndex_spec txs tx hs
  have hle := addTxIndex_le txs tx
  unfold firstIndexAtLeast
  rcases Nat.lt_or_eq_of_le hle with hlt | heq
  · symm
    rw [List.findIdx_eq hlt]
    refine ⟨?_, ?_⟩
    · simpa using hsp.2 _ hlt (le_refl _)
    · intro k hk
      have := hsp.1 k (by omega) hk
      simpa using this
  · rw [heq]
    symm
    apply List.findIdx_eq_length_of_false
    intro x hx
    obtain ⟨k, hk, rfl⟩ := List.getElem_of_mem hx
    have := hsp.1 k hk (by omega)
    simpa using this

theorem eraseIdx_insert {α : Type} (l : List α) (x : α) (j : Nat) (hj : j ≤ l.length) :
    (l.take j ++ x :: l.drop j).eraseIdx j = l := by
  have hlen : (l.take j).length = j := by simp [hj]
  rw [List.eraseIdx_append_of_length_le (by omega)]
  simp [hlen]

/-! ## A finalized group -/

/-- C11: after a `Commit` that succeeded, a second `Commit` and a `Rollback`
on the same group return nil, and so do a second `Rollback` and a `Commit`
after a `Rollback`: the further calls succeed silently, and call the
participants again. -/
theorem finalized_group_succeeds_again :
    (Commit createdXY.1 createdXY.2.2).err = none
      ∧ (Commit (Commit createdXY.1 createdXY.2.2).group
          (Commit createdXY.1 createdXY.2.2).rt).err = none
      ∧ (Rollback (Commit createdXY.1 createdXY.2.2).group
          (Commit createdXY.1 createdXY.2.2).rt).err = none
      ∧ callKeys (Rollback (Commit createdXY.1 createdXY.2.2).group
          (Commit createdXY.1 createdXY.2.2).rt).rt.log
          = [(true, "y"), (true, "x"), (false, "y"), (false, "x")]
      ∧ (Rollback createdXY.1 createdXY.2.2).err = none
      ∧ (Rollback (Rollback createdXY.1 createdXY.2.2).group
          (Rollback createdXY.1 createdXY.2.2).rt).err = none
      ∧ (Commit (Rollback createdXY.1 createdXY.2.2).group
          (Rollback createdXY.1 createdXY.2.2).rt).err = none := by
  decide

/-- C11, as amended: a group has no terminal guard.  After a `Commit` or a
`Rollback` (`fin` is what that call left), the sequence is as it was, a
further `Rollback` calls `Rollback` on every participant again and returns
nil when none of these calls fails, a further `Commit` whose commits succeed
calls `Commit` on every participant again and returns nil, and what is
finalized is the scope: `TxFromContext` and `AddTx` on it fail with
`context.Canceled`. -/
theorem finalized_group_runs_again {σ : Type} (g : Group σ) (s : Runtime σ)
    (fin : Result σ) (hfin : fin = Commit g s ∨ fin = Rollback g s) :
    fin.group.txs = g.txs
      ∧ (Rollback fin.group fin.rt).rt.log = fin.rt.log ++ g.txs.map Call.rollback
      ∧ (someRollbackFails g.txs fin.rt.world = false →
          (Rollback fin.group fin.rt).err = none)
      ∧ (commitsSucceed g.txs fin.rt.world = true →
          (Commit fin.group fin.rt).err = none
            ∧ (Commit fin.group fin.rt).rt.log = fin.rt.log ++ g.txs.map Call.commit)
      ∧ ∀ (c : Nat) (ctx : Context σ) (key : String) (tx : Tx σ),
          g.cancel = some c → ctx.under c = true →
            TxFromContext ctx key fin.rt.cancelled = .error .canceled
              ∧ AddTx fin.group ctx tx fin.rt.cancelled = (fin.group, .error .canceled) := by
  have htxs : fin.group.txs = g.txs := by
    rcases hfin with h | h
    · rw [h]; exact commitLoop_txs g g.txs s
    · rw [h]; rfl
  have hcanc : ∀ c, g.cancel = some c → c ∈ fin.rt.cancelled := by
    intro c hc
    rcases hfin with h | h
    · rw [h]; simp [Commit, commitLoop_cancelled g c hc]
    · rw [h]; simp [Rollback_cancelled g s c hc]
  refine ⟨htxs, ?_, ?_, ?_, ?_⟩
  · rw [Rollback_log, htxs]
  · intro h
    unfold Rollback
    rw [htxs]
    exact rollbackLoop_no_failure _ _ _ h
  · intro h
    have h1 : commitsSucceed fin.group.txs fin.rt.world = true := by rw [htxs]; exact h
    unfold Commit
    rw [commitLoop_success _ _ _ h1]
    exact ⟨rfl, by simp [runCancel_log, htxs]⟩
  · intro c ctx key tx hc hu
    have herr : ctx.Err fin.rt.cancelled = some .canceled :=
      Err_of_under ctx c _ hu (hcanc c hc)
    exact ⟨TxFromContext_of_Err _ _ _ _ herr, AddTx_err _ _ _ _ _ herr⟩

/-- Instance: the group of `txY` and `txX`, committed, and then rolled back
and committed again. -/
theorem finalized_group_runs_again_witness :
    (Commit createdXY.1 createdXY.2.2 = Commit createdXY.1 createdXY.2.2
        ∨ Commit createdXY.1 createdXY.2.2 = Rollback createdXY.1 createdXY.2.2)
      ∧ (Commit createdXY.1 createdXY.2.2).group.txs = createdXY.1.txs
      ∧ (Rollback (Commit createdXY.1 createdXY.2.2).group
          (Commit createdXY.1 createdXY.2.2).rt).err = none
      ∧ (Commit (Commit createdXY.1 createdXY.2.2).group
          (Commit createdXY.1 createdXY.2.2).rt).err = none
      ∧ TxFromContext createdXY.2.1 "x" (Commit createdXY.1 createdXY.2.2).rt.cancelled
          = .error .canceled :=
  ⟨Or.inl rfl,
   (finalized_group_runs_again createdXY.1 createdXY.2.2 _ (Or.inl rfl)).1,
   (finalized_group_runs_again createdXY.1 createdXY.2.2 _ (Or.inl rfl)).2.2.1 (by decide),
   ((finalized_group_runs_again createdXY.1 createdXY.2.2 _ (Or.inl rfl)).2.2.2.1
      (by decide)).1,
   ((finalized_group_runs_again createdXY.1 createdXY.2.2 _ (Or.inl rfl)).2.2.2.2
      0 createdXY.2.1 "x" txMock rfl (by decide)).1⟩

/-! ## Ties, scopes and duplicate keys -/

theorem addTxInsert_split {σ : Type} (txs : List (Tx σ)) (tx : Tx σ)
    (hs : SortedByWeight txs) :
    (∀ a ∈ txs.take (addTxIndex txs tx), a.Weight < tx.Weight)
      ∧ (∀ b ∈ txs.drop (addTxIndex txs tx), tx.Weight ≤ b.Weight) := by
  have hsp := addTxIndex_spec txs tx hs
  constructor
  · intro a ha
    obtain ⟨i, hi, rfl⟩ := List.mem_take_iff_getElem.mp ha
    exact hsp.1 i (by omega) (by omega)
  · intro b hb
    obtain ⟨i, hi, rfl⟩ := List.mem_drop_iff_getElem.mp hb
    exact hsp.2 _ (by omega) (by omega)

/-- C12: `AddTx` of a participant `b` of weight 1 into the sorted group of the
participant `a` of weight 1 puts `b` before `a`, and `Commit` then calls `b`
before `a`: not in the order of insertion. -/
theorem AddTx_tie_goes_first :
    SortedByWeight groupTie.txs
      ∧ groupTie.txs.map Tx.Weight = [txTie.Weight]
      ∧ (AddTx groupTie scope0 txTie []).1.txs.map Tx.Key = ["b", "a"]
      ∧ callKeys (Commit (AddTx groupTie scope0 txTie []).1 Runtime.init).rt.log
          = [(true, "b"), (true, "a")] := by
  decide

/-- C12, as amended: in a group sorted by weight, `AddTx` on a scope that is
not cancelled places `tx` after every participant of smaller weight and
before every participant of the same or a larger weight, so before every
participant already present whose weight equals its own; the participants
already present keep their order. -/
theorem AddTx_ties_before {σ : Type} (g : Group σ) (ctx : Context σ) (tx : Tx σ)
    (cs : List Nat) (hs : SortedByWeight g.txs) (hok : ctx.Err cs = none) :
    ∃ before after : List (Tx σ),
      g.txs = before ++ after
        ∧ (AddTx g ctx tx cs).1.txs = before ++ tx :: after
        ∧ (∀ a ∈ before, a.Weight < tx.Weight)
        ∧ (∀ b ∈ after, tx.Weight ≤ b.Weight)
        ∧ (∀ p ∈ g.txs, p.Weight = tx.Weight → p ∈ after) := by
  have hsplit := addTxInsert_split g.txs tx hs
  refine ⟨g.txs.take (addTxIndex g.txs tx), g.txs.drop (addTxIndex g.txs tx),
    (List.take_append_drop _ _).symm, ?_, hsplit.1, hsplit.2, ?_⟩
  · rw [AddTx_ok g ctx tx cs hok]
    exact addTxInsert_eq g.txs tx
  · intro p hp hw
    rw [← List.take_append_drop (addTxIndex g.txs tx) g.txs] at hp
    rcases List.mem_append.mp hp with h | h
    · have := hsplit.1 p h
      omega
    · exact h

/-- Instance: `txTie` added to `groupTie`. -/
theorem AddTx_ties_before_witness :
    (SortedByWeight groupTie.txs ∧ scope0.Err [] = none)
      ∧ ∃ before after : List (Tx Nat),
        groupTie.txs = before ++ after
          ∧ (AddTx groupTie scope0 txTie []).1.txs = before ++ txTie :: after
          ∧ (∀ a ∈ before, a.Weight < txTie.Weight)
          ∧ (∀ b ∈ after, txTie.Weight ≤ b.Weight)
          ∧ (∀ p ∈ groupTie.txs, p.Weight = txTie.Weight → p ∈ after) :=
  ⟨⟨by decide, by decide⟩,
   AddTx_ties_before groupTie scope0 txTie [] (by decide) (by decide)⟩

/-- C13: on a scope `ctx` that is not cancelled, `AddTx` returns no error and
the scope that binds the key of `tx` to `tx` on top of `ctx`; in that scope
`TxFromContext` with the key of `tx` returns `tx`, and with any other key it
returns what it returns in `ctx`. -/
theorem AddTx_extends_scope {σ : Type} (g : Group σ) (ctx : Context σ) (tx : Tx σ)
    (cs : List Nat) (hok : ctx.Err cs = none) :
    (AddTx g ctx tx cs).2 = .ok (.withValue ctx (.unique tx.Key) (.tx tx))
      ∧ TxFromContext (.withValue ctx (.unique tx.Key) (.tx tx)) tx.Key cs = .ok tx
      ∧ ∀ (k : String) (cs1 : List Nat), k ≠ tx.Key →
          TxFromContext (.withValue ctx (.unique tx.Key) (.tx tx)) k cs1
            = TxFromContext ctx k cs1 := by
  refine ⟨by rw [AddTx_ok g ctx tx cs hok], ?_, ?_⟩
  · apply TxFromContext_of_Value
    · exact hok
    · simp [Context.Value]
  · intro k cs1 hk
    have hne : CtxKey.unique tx.Key ≠ CtxKey.unique k := by
      intro h; injection h with h; exact hk h.symm
    simp [TxFromContext, Context.Err, Context.Value, hne]

/-- Instance: `txMock` added on the scope of `createdXY`; the key `x` still
gives `txX`. -/
theorem AddTx_extends_scope_witness :
    createdXY.2.1.Err [] = none
      ∧ (AddTx createdXY.1 createdXY.2.1 txMock []).2 = .ok scopeXYMock
      ∧ TxFromContext scopeXYMock "tx_mock" [] = .ok txMock
      ∧ TxFromContext scopeXYMock "x" [] = TxFromContext createdXY.2.1 "x" []
      ∧ TxFromContext createdXY.2.1 "x" [] = .ok txX :=
  ⟨by decide,
   (AddTx_extends_scope createdXY.1 createdXY.2.1 txMock [] (by decide)).1,
   (AddTx_extends_scope createdXY.1 createdXY.2.1 txMock [] (by decide)).2.1,
   (AddTx_extends_scope createdXY.1 createdXY.2.1 txMock [] (by decide)).2.2 "x" []
     (by decide),
   rfl⟩

theorem Value_of_not_bindsTx {σ : Type} (ctx : Context σ) (key : String)
    (h : ctx.bindsTx key = false) :
    ctx.Value (.unique key) = none ∨ ∃ n, ctx.Value (.unique key) = some (.other n) := by
  induction ctx with
  | background => left; rfl
  | withValue parent k v ih =>
      cases v with
      | tx t =>
          simp only [Context.bindsTx, Bool.or_eq_false_iff, beq_eq_false_iff_ne] at h
          simp only [Context.Value, h.1, if_false]
          exact ih h.2
      | other n =>
          simp only [Context.bindsTx] at h
          by_cases hk : k = CtxKey.unique key
          · right; exact ⟨n, by simp [Context.Value, hk]⟩
          · simp only [Context.Value, hk, if_false]
            exact ih h
  | withCancel parent cell ih => exact ih h

/-- C14: on a scope that is not cancelled and in whose chain no layer binds a
participant under the key, `TxFromContext` returns no participant and the
error of message "<key> transaction not found". -/
theorem TxFromContext_not_found {σ : Type} (ctx : Context σ) (key : String)
    (cs : List Nat) (hok : ctx.Err cs = none) (hb : ctx.bindsTx key = false) :
    TxFromContext ctx key cs = .error (.errorString (key ++ " transaction not found"))
      ∧ (GoError.errorString (key ++ " transaction not found")).Error
          = key ++ " transaction not found" := by
  refine ⟨?_, rfl⟩
  rcases Value_of_not_bindsTx ctx key hb with h | ⟨n, h⟩
  · simp [TxFromContext, hok, h]
  · simp [TxFromContext, hok, h]

/-- Instance: the key `key` in the scope of `createdXY`, which binds `x` and
`y` only. -/
theorem TxFromContext_not_found_witness :
    (createdXY.2.1.Err [] = none ∧ createdXY.2.1.bindsTx "key" = false)
      ∧ (TxFromContext createdXY.2.1 "key" []
          = .error (.errorString ("key" ++ " transaction not found"))
        ∧ (GoError.errorString ("key" ++ " transaction not found")).Error
          = "key" ++ " transaction not found") :=
  ⟨⟨by decide, by decide⟩,
   TxFromContext_not_found createdXY.2.1 "key" [] (by decide) (by decide)⟩

/-- C15: when `tx` has the key of a participant `p` of the group and the
scope is not cancelled, after `AddTx` the sequence holds the previous
participants and `tx`, so both `p` and `tx`; `Rollback` calls both, and so
does a `Commit` whose commits succeed; and in the scope returned, while it is
not cancelled, `TxFromContext` with that key returns `tx`, and so not `p`
when `p` is another participant. -/
theorem AddTx_duplicate_key {σ : Type} (g : Group σ) (ctx : Context σ) (tx p : Tx σ)
    (cs : List Nat) (hok : ctx.Err cs = none) (hp : p ∈ g.txs) (hkey : p.Key = tx.Key) :
    (AddTx g ctx tx cs).1.txs.Perm (tx :: g.txs)
      ∧ p ∈ (AddTx g ctx tx cs).1.txs
      ∧ tx ∈ (AddTx g ctx tx cs).1.txs
      ∧ (∀ s : Runtime σ,
          Call.rollback p ∈ (Rollback (AddTx g ctx tx cs).1 s).rt.log
            ∧ Call.rollback tx ∈ (Rollback (AddTx g ctx tx cs).1 s).rt.log)
      ∧ (∀ s : Runtime σ, commitsSucceed (AddTx g ctx tx cs).1.txs s.world = true →
          Call.commit p ∈ (Commit (AddTx g ctx tx cs).1 s).rt.log
            ∧ Call.commit tx ∈ (Commit (AddTx g ctx tx cs).1 s).rt.log)
      ∧ (AddTx g ctx tx cs).2 = .ok (.withValue ctx (.unique tx.Key) (.tx tx))
      ∧ ∀ cs1 : List Nat, ctx.Err cs1 = none →
          TxFromContext (.withValue ctx (.unique tx.Key) (.tx tx)) p.Key cs1 = .ok tx
            ∧ (p ≠ tx →
                TxFromContext (.withValue ctx (.unique tx.Key) (.tx tx)) p.Key cs1
                  ≠ .ok p) := by
  have hperm : (AddTx g ctx tx cs).1.txs.Perm (tx :: g.txs) := by
    rw [AddTx_ok g ctx tx cs hok]; exact addTxInsert_perm g.txs tx
  have hpm : p ∈ (AddTx g ctx tx cs).1.txs :=
    hperm.mem_iff.mpr (List.mem_cons_of_mem _ hp)
  have htm : tx ∈ (AddTx g ctx tx cs).1.txs :=
    hperm.mem_iff.mpr (List.mem_cons_self _ _)
  have hlook : ∀ cs1 : List Nat, ctx.Err cs1 = none →
      TxFromContext (.withValue ctx (.unique tx.Key) (.tx tx)) p.Key cs1 = .ok tx := by
    intro cs1 h1
    rw [hkey]
    apply TxFromContext_of_Value
    · exact h1
    · simp [Context.Value]
  refine ⟨hperm, hpm, htm, ?_, ?_, by rw [AddTx_ok g ctx tx cs hok], ?_⟩
  · intro s
    rw [Rollback_log]
    exact ⟨List.mem_append_right _ (List.mem_map_of_mem _ hpm),
      List.mem_append_right _ (List.mem_map_of_mem _ htm)⟩
  · intro s h
    unfold Commit
    rw [commitLoop_success _ _ s h, runCancel_log]
    exact ⟨List.mem_append_right _ (List.mem_map_of_mem _ hpm),
      List.mem_append_right _ (List.mem_map_of_mem _ htm)⟩
  · intro cs1 h1
    refine ⟨hlook cs1 h1, ?_⟩
    intro hne heq
    rw [hlook cs1 h1] at heq
    injection heq with heq
    exact hne heq.symm

/-- Instance: `txX2`, a second participant of key `x`, added to the group of
`txY` and `txX`. -/
theorem AddTx_duplicate_key_witness :
    (createdXY.2.1.Err [] = none ∧ txX ∈ createdXY.1.txs ∧ txX.Key = txX2.Key)
      ∧ (AddTx createdXY.1 createdXY.2.1 txX2 []).1.txs.map Tx.ptr = [2, 3, 1]
      ∧ callKeys (Rollback (AddTx createdXY.1 createdXY.2.1 txX2 []).1
          createdXY.2.2).rt.log = [(false, "y"), (false, "x"), (false, "x")]
      ∧ txX ∈ (AddTx createdXY.1 createdXY.2.1 txX2 []).1.txs
      ∧ txX2 ∈ (AddTx createdXY.1 createdXY.2.1 txX2 []).1.txs
      ∧ TxFromContext (.withValue createdXY.2.1 (.unique txX2.Key) (.tx txX2)) txX.Key []
          = .ok txX2 :=
  ⟨⟨by decide, List.mem_cons_of_mem _ (List.mem_cons_self _ _), rfl⟩,
   by decide, by decide,
   (AddTx_duplicate_key createdXY.1 createdXY.2.1 txX2 txX [] (by decide)
     (List.mem_cons_of_mem _ (List.mem_cons_self _ _)) rfl).2.1,
   (AddTx_duplicate_key createdXY.1 createdXY.2.1 txX2 txX [] (by decide)
     (List.mem_cons_of_mem _ (List.mem_cons_self _ _)) rfl).2.2.1,
   ((AddTx_duplicate_key createdXY.1 createdXY.2.1 txX2 txX [] (by decide)
     (List.mem_cons_of_mem _ (List.mem_cons_self _ _)) rfl).2.2.2.2.2.2 [] (by decide)).1⟩

theorem WithContext_scope {σ : Type} (srt : SliceSorter σ) (parent : Option (Context σ))
    (txs : List (Tx σ)) (s : Runtime σ) :
    (WithContext srt parent txs s).1.cancel = some s.next
      ∧ (WithContext srt parent txs s).2.1.under s.next = true := by
  constructor
  · rfl
  · simp [WithContext, NewContext, WithCancel, Context.under]

/-- C16: for the group that `WithContext` makes of no participant, at any
later state of the runtime, `Commit` returns nil and `Rollback` returns nil,
neither adds a call to the log, and each leaves the scope of the group
cancelled. -/
theorem empty_group_finalizes {σ : Type} (srt : SliceSorter σ)
    (parent : Option (Context σ)) (s s1 : Runtime σ) :
    (WithContext srt parent [] s).1.txs = []
      ∧ (Commit (WithContext srt parent [] s).1 s1).err = none
      ∧ (Commit (WithContext srt parent [] s).1 s1).rt.log = s1.log
      ∧ (WithContext srt parent [] s).2.1.Err
          (Commit (WithContext srt parent [] s).1 s1).rt.cancelled = some .canceled
      ∧ (Rollback (WithContext srt parent [] s).1 s1).err = none
      ∧ (Rollback (WithContext srt parent [] s).1 s1).rt.log = s1.log
      ∧ (WithContext srt parent [] s).2.1.Err
          (Rollback (WithContext srt parent [] s).1 s1).rt.cancelled = some .canceled := by
  have hsc := WithContext_scope srt parent [] s
  have htxs : (WithContext srt parent [] s).1.txs = [] := by
    simp [WithContext, NewContext]
  refine ⟨htxs, ?_, ?_, ?_, ?_, ?_, ?_⟩
  · simp [Commit, htxs, commitLoop]
  · simp [Commit, htxs, commitLoop, runCancel_log]
  · apply Err_of_under _ _ _ hsc.2
    simp [Commit, commitLoop_cancelled _ _ hsc.1]
  · simp [Rollback, htxs, rollbackLoop]
  · simp [Rollback_log, htxs]
  · apply Err_of_under _ _ _ hsc.2
    simp [Rollback_cancelled _ _ _ hsc.1]

/-- C17: in a group sorted by weight, `AddTx` on a scope that is not
cancelled leaves the sequence `s[0..j) ++ [tx] ++ s[j..)`, where `j` is the
first index whose participant has a weight that is at least the weight of
`tx`, or the length when there is none; this `j` is the index that
`sort.Search` returns, and taking `tx` out at `j` gives the sequence as it
was.  In particular this holds when `j` is below the length (the shift in
place) and when it is the length (the append). -/
theorem AddTx_insertion_position {σ : Type} (g : Group σ) (ctx : Context σ) (tx : Tx σ)
    (cs : List Nat) (hs : SortedByWeight g.txs) (hok : ctx.Err cs = none) :
    addTxIndex g.txs tx = firstIndexAtLeast g.txs tx.Weight
      ∧ firstIndexAtLeast g.txs tx.Weight ≤ g.txs.length
      ∧ (AddTx g ctx tx cs).1.txs =
          g.txs.take (firstIndexAtLeast g.txs tx.Weight) ++ [tx]
            ++ g.txs.drop (firstIndexAtLeast g.txs tx.Weight)
      ∧ (AddTx g ctx tx cs).1.txs.eraseIdx (firstIndexAtLeast g.txs tx.Weight) = g.txs := by
  have hj := addTxIndex_eq_first g.txs tx hs
  have hle : firstIndexAtLeast g.txs tx.Weight ≤ g.txs.length := by
    rw [← hj]; exact addTxIndex_le g.txs tx
  have heq : (AddTx g ctx tx cs).1.txs =
      g.txs.take (firstIndexAtLeast g.txs tx.Weight)
        ++ tx :: g.txs.drop (firstIndexAtLeast g.txs tx.Weight) := by
    rw [AddTx_ok g ctx tx cs hok, ← hj]
    exact addTxInsert_eq g.txs tx
  refine ⟨hj, hle, ?_, ?_⟩
  · rw [heq]; simp
  · rw [heq]; exact eraseIdx_insert _ _ _ hle

/-- Instance: `txMock`, of weight 1, goes to index 1 of the two participants
`txY` and `txX` (the shift), and `txX`, of weight 2, to index 1 of the one
participant of `groupTie` (the append). -/
theorem AddTx_insertion_position_witness :
    (SortedByWeight createdXY.1.txs ∧ createdXY.2.1.Err [] = none)
      ∧ firstIndexAtLeast createdXY.1.txs txMock.Weight = 1
      ∧ (addTxIndex createdXY.1.txs txMock = firstIndexAtLeast createdXY.1.txs txMock.Weight
        ∧ firstIndexAtLeast createdXY.1.txs txMock.Weight ≤ createdXY.1.txs.length
        ∧ (AddTx createdXY.1 createdXY.2.1 txMock []).1.txs =
            createdXY.1.txs.take (firstIndexAtLeast createdXY.1.txs txMock.Weight) ++ [txMock]
              ++ createdXY.1.txs.drop (firstIndexAtLeast createdXY.1.txs txMock.Weight)
        ∧ (AddTx createdXY.1 createdXY.2.1 txMock []).1.txs.eraseIdx
            (firstIndexAtLeast createdXY.1.txs txMock.Weight) = createdXY.1.txs)
      ∧ (SortedByWeight groupTie.txs ∧ scope0.Err [] = none)
      ∧ firstIndexAtLeast groupTie.txs txX.Weight = groupTie.txs.length
      ∧ (AddTx groupTie scope0 txX []).1.txs =
          groupTie.txs.take (firstIndexAtLeast groupTie.txs txX.Weight) ++ [txX]
            ++ groupTie.txs.drop (firstIndexAtLeast groupTie.txs txX.Weight) :=
  ⟨⟨by decide, by decide⟩, by decide,
   AddTx_insertion_position createdXY.1 createdXY.2.1 txMock [] (by decide) (by decide),
   ⟨by decide, by decide⟩, by decide,
   (AddTx_insertion_position groupTie scope0 txX [] (by decide) (by decide)).2.2.1⟩

/-! ## What Rollback and a failed Commit return -/

theorem commitLoop_err_congr {σ : Type} (g1 g2 : Group σ) (l1 l2 : List (Tx σ))
    (h : List.Forall₂ sameButRollback l1 l2) :
    ∀ s1 s2 : Runtime σ, s1.world = s2.world →
      (commitLoop g1 l1 s1).err = (commitLoop g2 l2 s2).err := by
  induction h with
  | nil => intro s1 s2 _; rfl
  | @cons a b r1 r2 hab _ ih =>
      intro s1 s2 hw
      obtain ⟨_, hkey, _, hcommit⟩ := hab
      have hc : b.Commit s2.world = a.Commit s1.world := by rw [← hcommit, hw]
      simp only [commitLoop, hc]
      cases hr : (a.Commit s1.world).1 with
      | some e => simp [hkey]
      | none => exact ih _ _ rfl

/-- C18: the value that `Rollback` returns is decided at the last participant
of the sequence.  It is nil when the sequence is empty, and nil when the
`Rollback` of the last participant succeeds, whatever the participants before
it returned.  When the last `Rollback` fails with `e`, it is `e` wrapped with
the key of the last participant if `errOnce` has not run, in an earlier pass
or at a participant before the last in this pass, and it is the bare `e` if
it has.  `errOnce` starts unset in `WithContext`, is set by a `Rollback` pass
in which a `Rollback` fails, also by the pass inside a failed `Commit`, and is
left as it is by a `Commit` that succeeds. -/
theorem Rollback_returns_last_result {σ : Type} (g : Group σ) (s : Runtime σ) :
    (g.txs = [] → (Rollback g s).err = none)
      ∧ (∀ (init : List (Tx σ)) (last : Tx σ), g.txs = init ++ [last] →
          ((last.Rollback (worldAfterRollbacks init s.world)).1 = none →
            (Rollback g s).err = none)
          ∧ (∀ e, (last.Rollback (worldAfterRollbacks init s.world)).1 = some e →
              (g.errOnce || someRollbackFails init s.world) = false →
              (Rollback g s).err = some (.wrapError
                (last.Key ++ " rollback failed: " ++ e.Error) e))
          ∧ (∀ e, (last.Rollback (worldAfterRollbacks init s.world)).1 = some e →
              (g.errOnce || someRollbackFails init s.world) = true →
              (Rollback g s).err = some e))
      ∧ (Rollback g s).group.errOnce = (g.errOnce || someRollbackFails g.txs s.world)
      ∧ (commitsSucceed g.txs s.world = true → (Commit g s).group.errOnce = g.errOnce)
      ∧ (∀ (pre : List (Tx σ)) (tk : Tx σ) (post : List (Tx σ)) (e : GoError),
          g.txs = pre ++ tk :: post → commitsSucceed pre s.world = true →
          (tk.Commit (worldAfterCommits pre s.world)).1 = some e →
          (Commit g s).group.errOnce =
            (g.errOnce || someRollbackFails g.txs
              (tk.Commit (worldAfterCommits pre s.world)).2))
      ∧ (∀ (srt : SliceSorter σ) (parent : Option (Context σ)) (txs : List (Tx σ)),
          (WithContext srt parent txs s).1.errOnce = false) := by
  refine ⟨?_, ?_, ?_, ?_, ?_, ?_⟩
  · intro h
    simp [Rollback, h, rollbackLoop]
  · intro init last h
    have hr := Rollback_snoc g s init last h
    refine ⟨?_, ?_, ?_⟩
    · intro h1; rw [hr, h1]
    · intro e h1 h2; rw [hr, h1]; simp [h2, Errorf]
    · intro e h1 h2; rw [hr, h1]; simp [h2]
  · simp only [Rollback]
    exact rollbackLoop_once _ _ _ _
  · intro h
    unfold Commit
    rw [commitLoop_success _ _ _ h]
  · intro pre tk post e hseq hpre hk
    unfold Commit
    rw [hseq, commitLoop_failure g pre tk post e s hpre hk]
    simp only [Rollback]
    rw [rollbackLoop_once, hseq]
  · intro srt parent txs
    rfl

/-- Instance: the three cases, each on two participants `a` and `b`.  In
`groupFailOk` the last `Rollback` succeeds, in `groupOkFail` the failure of
`b` is the first one, in `groupFailFail` it comes after the failure of `a`. -/
theorem Rollback_returns_last_result_witness :
    (Rollback groupFailOk Runtime.init).err = none
      ∧ (Rollback groupOkFail Runtime.init).err
          = some (.wrapError ("b" ++ " rollback failed: " ++ (GoError.errorString "eb").Error)
              (.errorString "eb"))
      ∧ (Rollback groupFailFail Runtime.init).err = some (.errorString "eb")
      ∧ (Rollback groupFailFail Runtime.init).group.errOnce
          = (groupFailFail.errOnce
              || someRollbackFails groupFailFail.txs Runtime.init.world)
      ∧ (Rollback (Commit groupCleanupFails Runtime.init).group
          (Commit groupCleanupFails Runtime.init).rt).err = some (.errorString "rq") :=
  ⟨((Rollback_returns_last_result groupFailOk Runtime.init).2.1
      [newTxMock 1 "a" (some (.errorString "ea")) 0] (newTxMock 2 "b" none 1) rfl).1
      (by decide),
   ((Rollback_returns_last_result groupOkFail Runtime.init).2.1
      [newTxMock 1 "a" none 0] (newTxMock 2 "b" (some (.errorString "eb")) 1) rfl).2.1
      (.errorString "eb") (by decide) (by decide),
   ((Rollback_returns_last_result groupFailFail Runtime.init).2.1
      [newTxMock 1 "a" (some (.errorString "ea")) 0]
      (newTxMock 2 "b" (some (.errorString "eb")) 1) rfl).2.2
      (.errorString "eb") (by decide) (by decide),
   (Rollback_returns_last_result groupFailFail Runtime.init).2.2.1,
   by decide⟩

/-- C19: the error that `Commit` returns does not depend on what the
`Rollback` of the participants does.  Two groups whose participants differ at
most in `Rollback`, run from the same world, return the same value from
`Commit`; and when the commit of `tk` fails with `e` in the first, the second
returns that commit failure, wrapped with the key of `tk`, whatever its
rollbacks return. -/
theorem Commit_error_ignores_rollbacks {σ : Type} (g1 g2 : Group σ) (s1 s2 : Runtime σ)
    (htxs : List.Forall₂ sameButRollback g1.txs g2.txs) (hw : s1.world = s2.world) :
    (Commit g1 s1).err = (Commit g2 s2).err
      ∧ ∀ (pre : List (Tx σ)) (tk : Tx σ) (post : List (Tx σ)) (e : GoError),
          g1.txs = pre ++ tk :: post → commitsSucceed pre s1.world = true →
          (tk.Commit (worldAfterCommits pre s1.world)).1 = some e →
          (Commit g2 s2).err = some (.wrapError (tk.Key ++ " commit failed: " ++ e.Error) e) := by
  have heq : (Commit g1 s1).err = (Commit g2 s2).err :=
    commitLoop_err_congr g1 g2 g1.txs g2.txs htxs s1 s2 hw
  refine ⟨heq, ?_⟩
  intro pre tk post e hseq hpre hk
  rw [← heq]
  unfold Commit
  rw [hseq, commitLoop_failure g1 pre tk post e s1 hpre hk]
  simp [Errorf]

/-- Instance: `groupCleanupOk` and `groupCleanupFails` differ in their
rollbacks only; the commit of `q` fails in both. -/
theorem Commit_error_ignores_rollbacks_witness :
    (List.Forall₂ sameButRollback groupCleanupOk.txs groupCleanupFails.txs
        ∧ Runtime.init.world = Runtime.init.world)
      ∧ someRollbackFails groupCleanupFails.txs 2 = true
      ∧ (Commit groupCleanupOk Runtime.init).err
          = (Commit groupCleanupFails Runtime.init).err
      ∧ (Commit groupCleanupFails Runtime.init).err
          = some (.wrapError "q commit failed: boom" (.errorString "boom")) :=
  ⟨⟨.cons ⟨rfl, rfl, rfl, rfl⟩ (.cons ⟨rfl, rfl, rfl, rfl⟩ .nil), rfl⟩,
   by decide,
   (Commit_error_ignores_rollbacks groupCleanupOk groupCleanupFails Runtime.init Runtime.init
     (.cons ⟨rfl, rfl, rfl, rfl⟩ (.cons ⟨rfl, rfl, rfl, rfl⟩ .nil)) rfl).1,
   by decide⟩

end Txgroup
